import Mathlib

/-!
Shallow embedding of the betting backtesting engine
(`betting_backend/backtesting/strategy_simulator.py` and
`betting_backend/backtesting/performance_analyzer.py`).

Monetary and statistical quantities are modelled as exact rationals; Python's
`round(x, 2)` (round-half-to-even on the second decimal) is modelled by
`round2`.  The Sharpe ratio needs a real square root, so it lives in `ℝ`;
every other definition is computable.  Game dates are modelled as naturals
(the simulator only groups, sorts and formats them, all injectively).
-/

namespace Backtest

/-- A historical prediction record, as consumed by `StrategySimulator`:
player id, game id, prop type, projected value, confidence, expected value,
sport and game date. -/
structure Pred where
  playerId : ℕ
  gameId : ℕ
  propType : String
  projectedValue : ℚ
  confidence : ℚ
  expectedValue : ℚ
  sport : String
  gameDate : ℕ
  deriving DecidableEq, Inhabited

/-- Key of the `actual_outcomes` dict: (player_id, game_id, prop_type). -/
abbrev OutcomeKey := ℕ × ℕ × String

/-- The `actual_outcomes` lookup; `some v` is an entry whose `value` field is
`v`, `none` a lookup miss. -/
abbrev Outcomes := OutcomeKey → Option ℚ

/-- The `Bet` dataclass.  `outcome` is `none` for unresolved, `some true`
for `'win'`, `some false` for `'loss'`.  `potentialPayout` is the field set
in `__post_init__`. -/
structure Bet where
  date : ℕ
  entrySize : ℕ
  props : List Pred
  stake : ℚ
  payoutMultiplier : ℚ
  confidenceAvg : ℚ
  expectedValue : ℚ
  sport : String
  propTypes : List String
  potentialPayout : ℚ
  outcome : Option Bool
  actualPnl : ℚ
  deriving DecidableEq, Inhabited

/-- `ENTRY_PAYOUTS` from `backtesting/config.py`, with the `.get(size, 1.0)`
default. -/
def ENTRY_PAYOUTS (entrySize : ℕ) : ℚ :=
  if entrySize = 2 then 3
  else if entrySize = 3 then 6
  else if entrySize = 4 then 10
  else if entrySize = 5 then 20
  else 1

/-- `np.mean` of a list of rationals (sum divided by length). -/
def npMean (xs : List ℚ) : ℚ := xs.sum / (xs.length : ℚ)

/-- Python's `round(x, 2)`: round half to even on the second decimal. -/
def round2 (x : ℚ) : ℚ :=
  let y := x * 100
  let f := ⌊y⌋
  let r := y - (f : ℚ)
  (if r < 1/2 then (f : ℚ)
   else if 1/2 < r then (f : ℚ) + 1
   else if f % 2 = 0 then (f : ℚ) else (f : ℚ) + 1) / 100

open Classical in
/-- Python's `round(x, 2)` on a real value (used only for the Sharpe field). -/
noncomputable def round2R (x : ℝ) : ℝ :=
  let y := x * 100
  let f := ⌊y⌋
  let r := y - (f : ℝ)
  (if r < 1/2 then (f : ℝ)
   else if 1/2 < r then (f : ℝ) + 1
   else if f % 2 = 0 then (f : ℝ) else (f : ℝ) + 1) / 100

/-- `StrategySimulator._calculate_stake`. -/
def calculateStake (currentBankroll baseBetSize : ℚ) (strategy : String)
    (props : List Pred) : ℚ :=
  if strategy = "flat" then baseBetSize
  else if strategy = "percentage" then currentBankroll * (baseBetSize / 100)
  else if strategy = "kelly" then
    if 50 < npMean (props.map Pred.confidence) ∧
        0 < npMean (props.map Pred.expectedValue) then
      currentBankroll * (npMean (props.map Pred.expectedValue) / 100) *
        (if baseBetSize ≤ 1 then baseBetSize else baseBetSize / 100)
    else 0
  else baseBetSize

/-- The `Bet(...)` construction in `_create_entries`, including the
`__post_init__` fields. -/
def mkBet (entryProps : List Pred) (entrySize : ℕ) (stake : ℚ) : Bet where
  date := entryProps.headI.gameDate
  entrySize := entrySize
  props := entryProps
  stake := stake
  payoutMultiplier := ENTRY_PAYOUTS entrySize
  confidenceAvg := npMean (entryProps.map Pred.confidence)
  expectedValue := npMean (entryProps.map Pred.expectedValue)
  sport := entryProps.headI.sport
  propTypes := entryProps.map Pred.propType
  potentialPayout := stake * ENTRY_PAYOUTS entrySize
  outcome := none
  actualPnl := 0

/-- Python's stable descending sort key comparison for
`sorted(key=lambda x: (confidence, expected_value), reverse=True)`:
`a` may stay before `b` iff `a`'s key is lexicographically ≥ `b`'s. -/
def predKeyGe (a b : Pred) : Bool :=
  decide (b.confidence < a.confidence ∨
    (a.confidence = b.confidence ∧ b.expectedValue ≤ a.expectedValue))

/-- The `sorted(predictions, key=..., reverse=True)` call in
`_create_entries` (stable mergesort with the descending comparator). -/
def sortPredsDesc (predictions : List Pred) : List Pred :=
  predictions.mergeSort predKeyGe

/-- The `while i + entry_size <= len(sorted_preds)` loop of
`_create_entries`, on the not-yet-consumed suffix.  The loop advances by
`entry_size` each iteration, so for the positive entry sizes the simulator
is run with, `length` steps of fuel are more than enough. -/
def createLoop (currentBankroll baseBetSize : ℚ) (strategy : String)
    (entrySize : ℕ) : ℕ → List Pred → List Bet
  | 0, _ => []
  | fuel + 1, preds =>
    if entrySize ≤ preds.length then
      let entryProps := preds.take entrySize
      let stake := calculateStake currentBankroll baseBetSize strategy entryProps
      if stake ≤ 0 ∨ currentBankroll < stake then []
      else mkBet entryProps entrySize stake ::
        createLoop currentBankroll baseBetSize strategy entrySize fuel
          (preds.drop entrySize)
    else []

/-- `StrategySimulator._create_entries`. -/
def createEntries (predictions : List Pred) (entrySize : ℕ)
    (currentBankroll baseBetSize : ℚ) (strategy : String) : List Bet :=
  let sortedPreds := sortPredsDesc predictions
  createLoop currentBankroll baseBetSize strategy entrySize
    sortedPreds.length sortedPreds

/-- `StrategySimulator._group_by_date`: association list keyed by the
distinct game dates in ascending order, each date mapped to its predictions
in original order. -/
def groupByDate (predictions : List Pred) : List (ℕ × List Pred) :=
  (((predictions.map Pred.gameDate).dedup).mergeSort
      (fun a b => decide (a ≤ b))).map
    (fun d => (d, predictions.filter (fun p => p.gameDate = d)))

/-- One (date, entry_size) iteration of `_generate_bets`: extend the bet
list and, for a non-flat strategy, decrement the tracked bankroll by the
stakes just generated. -/
def generateStep (baseBetSize : ℚ) (strategy : String)
    (acc : List Bet × ℚ) (datePreds : List Pred) (entrySize : ℕ) :
    List Bet × ℚ :=
  let entryBets := createEntries datePreds entrySize acc.2 baseBetSize strategy
  (acc.1 ++ entryBets,
   if strategy = "flat" then acc.2
   else acc.2 - (entryBets.map Bet.stake).sum)

/-- `StrategySimulator._generate_bets`, with the tracked bankroll kept in
the fold state (the returned pair is (bets, final tracked bankroll)). -/
def generateState (predictions : List Pred) (entrySizes : List ℕ)
    (startingBankroll baseBetSize : ℚ) (strategy : String) : List Bet × ℚ :=
  (groupByDate predictions).foldl
    (fun acc g =>
      entrySizes.foldl (fun acc2 s => generateStep baseBetSize strategy acc2 g.2 s) acc)
    ([], startingBankroll)

/-- The bet list returned by `_generate_bets`. -/
def generateBets (predictions : List Pred) (entrySizes : List ℕ)
    (startingBankroll baseBetSize : ℚ) (strategy : String) : List Bet :=
  (generateState predictions entrySizes startingBankroll baseBetSize strategy).1

/-- One constituent prop's test in `_evaluate_bets`: the prop counts as hit
unless the outcome lookup misses or `actual_value < projected`. -/
def propHit (outcomes : Outcomes) (prop : Pred) : Bool :=
  match outcomes (prop.playerId, prop.gameId, prop.propType) with
  | none => false
  | some actualValue => !(decide (actualValue < prop.projectedValue))

/-- Resolution of a single bet in `_evaluate_bets` (the `for prop ... break`
loop is exactly a short-circuit `all`). -/
def evaluateBet (outcomes : Outcomes) (bet : Bet) : Bet :=
  if bet.props.all (propHit outcomes) then
    { bet with outcome := some true, actualPnl := bet.potentialPayout - bet.stake }
  else
    { bet with outcome := some false, actualPnl := -bet.stake }

/-- `StrategySimulator._evaluate_bets`. -/
def evaluateBets (outcomes : Outcomes) (bets : List Bet) : List Bet :=
  bets.map (evaluateBet outcomes)

/-- Per-wager returns `b.actual_pnl / b.stake` fed to the Sharpe ratio. -/
def betReturns (bets : List Bet) : List ℚ :=
  bets.map (fun b => b.actualPnl / b.stake)

/-- Excess returns: each return minus the per-period risk-free rate
`0.02 / 252`. -/
def excessReturns (returns : List ℚ) : List ℚ :=
  returns.map (fun r => r - (2 / 100) / 252)

/-- Population variance (`np.std(xs)**2`, ddof = 0). -/
def varianceQ (xs : List ℚ) : ℚ :=
  npMean (xs.map (fun x => (x - npMean xs) ^ 2))

/-- `StrategySimulator._calculate_sharpe_ratio` (name shortened).  `np.std`
is the square root of `varianceQ`, and for a nonnegative radicand it is zero
exactly when `varianceQ` is, so the source's `np.std(...) == 0` guard is the
decidable guard below. -/
noncomputable def calculateSharpe (returns : List ℚ) : ℝ :=
  if returns.length < 2 then 0
  else if varianceQ (excessReturns returns) = 0 then 0
  else (npMean (excessReturns returns) : ℝ) /
      Real.sqrt ((varianceQ (excessReturns returns) : ℝ)) * Real.sqrt 252

/-- One step of the streak scan in `_calculate_streaks`; the state is
(max win streak, max loss streak, current win streak, current loss streak). -/
def streakStep (s : ℕ × ℕ × ℕ × ℕ) (bet : Bet) : ℕ × ℕ × ℕ × ℕ :=
  if bet.outcome = some true then
    (max s.1 (s.2.2.1 + 1), s.2.1, s.2.2.1 + 1, 0)
  else
    (s.1, max s.2.1 (s.2.2.2 + 1), 0, s.2.2.2 + 1)

/-- `StrategySimulator._calculate_streaks`. -/
def calculateStreaks (bets : List Bet) : ℕ × ℕ :=
  ((bets.foldl streakStep (0, 0, 0, 0)).1,
   (bets.foldl streakStep (0, 0, 0, 0)).2.1)

/-- One step of the max-drawdown walk in `_calculate_performance`; the state
is (cumulative pnl, peak, max drawdown so far). -/
def drawdownStep (startingBankroll : ℚ) (s : ℚ × ℚ × ℚ) (bet : Bet) :
    ℚ × ℚ × ℚ :=
  let cumulativePnl := s.1 + bet.actualPnl
  let currentBankroll := startingBankroll + cumulativePnl
  let peak := if s.2.1 < currentBankroll then currentBankroll else s.2.1
  let drawdown := if 0 < peak then (peak - currentBankroll) / peak * 100 else 0
  (cumulativePnl, peak, max s.2.2 drawdown)

/-- The max-drawdown loop of `_calculate_performance` (before rounding). -/
def maxDrawdownWalk (bets : List Bet) (startingBankroll : ℚ) : ℚ :=
  (bets.foldl (drawdownStep startingBankroll) (0, startingBankroll, 0)).2.2

/-- The equity curve the drawdown walk tracks: starting bankroll plus each
running cumulative P&L, in order. -/
def equityCurve (current : ℚ) : List Bet → List ℚ
  | [] => [current]
  | b :: bs => current :: equityCurve (current + b.actualPnl) bs

/-- One row of the `daily_results` chart data. -/
structure Daily where
  date : ℕ
  bets : ℕ
  wins : ℕ
  losses : ℕ
  dailyPnl : ℚ
  cumulativePnl : ℚ
  bankroll : ℚ
  deriving DecidableEq, Inhabited

/-- In-place update of the entry of a given date (all other entries kept). -/
def updateDaily (entries : List Daily) (d : ℕ) (f : Daily → Daily) :
    List Daily :=
  entries.map (fun e => if e.date = d then f e else e)

/-- One bet of the `_calculate_daily_results` loop: create the date's row on
first sight (insertion order), then bump its counters and overwrite its
cumulative P&L and bankroll with the rounded running values. -/
def dailyStep (startingBankroll : ℚ) (s : List Daily × ℚ) (bet : Bet) :
    List Daily × ℚ :=
  let entries := if s.1.any (fun e => e.date = bet.date) then s.1
                 else s.1 ++ [⟨bet.date, 0, 0, 0, 0, 0, 0⟩]
  let cumulativePnl := s.2 + bet.actualPnl
  (updateDaily entries bet.date (fun e =>
     ⟨e.date, e.bets + 1,
      e.wins + (if bet.outcome = some true then 1 else 0),
      e.losses + (if bet.outcome = some false then 1 else 0),
      e.dailyPnl + bet.actualPnl,
      round2 cumulativePnl,
      round2 (startingBankroll + cumulativePnl)⟩),
   cumulativePnl)

/-- `StrategySimulator._calculate_daily_results`. -/
def calculateDailyResults (bets : List Bet) (startingBankroll : ℚ) :
    List Daily :=
  (bets.foldl (dailyStep startingBankroll) ([], 0)).1

/-- The `BettingResult` dataclass.  `sharpe` is the `sharpe_ratio` field
(name shortened). -/
structure BettingResult where
  bets : List Bet
  totalBets : ℕ
  wins : ℕ
  losses : ℕ
  winRate : ℚ
  totalProfit : ℚ
  totalStaked : ℚ
  roi : ℚ
  maxDrawdown : ℚ
  sharpe : ℝ
  profitFactor : ℚ
  longestWinStreak : ℕ
  longestLossStreak : ℕ
  startingBankroll : ℚ
  endingBankroll : ℚ
  avgBetSize : ℚ
  dailyResults : List Daily

/-- `StrategySimulator._empty_result`. -/
def emptyResult (startingBankroll : ℚ) : BettingResult where
  bets := []
  totalBets := 0
  wins := 0
  losses := 0
  winRate := 0
  totalProfit := 0
  totalStaked := 0
  roi := 0
  maxDrawdown := 0
  sharpe := 0
  profitFactor := 0
  longestWinStreak := 0
  longestLossStreak := 0
  startingBankroll := startingBankroll
  endingBankroll := startingBankroll
  avgBetSize := 0
  dailyResults := []

/-- `StrategySimulator._calculate_performance`. -/
noncomputable def calculatePerformance (bets : List Bet)
    (startingBankroll : ℚ) : BettingResult :=
  if bets = [] then emptyResult startingBankroll
  else
    let totalBets := bets.length
    let wins := (bets.filter (fun b => b.outcome = some true)).length
    let losses := totalBets - wins
    let winRate := if 0 < totalBets then (wins : ℚ) / (totalBets : ℚ) * 100 else 0
    let totalStaked := (bets.map Bet.stake).sum
    let totalProfit := (bets.map Bet.actualPnl).sum
    let roi := if 0 < totalStaked then totalProfit / totalStaked * 100 else 0
    let endingBankroll := startingBankroll + totalProfit
    let avgBetSize := if 0 < totalBets then totalStaked / (totalBets : ℚ) else 0
    let sharpe := if 1 < bets.length then calculateSharpe (betReturns bets) else 0
    let grossProfit := ((bets.filter (fun b => 0 < b.actualPnl)).map Bet.actualPnl).sum
    let grossLoss := |((bets.filter (fun b => b.actualPnl < 0)).map Bet.actualPnl).sum|
    let profitFactor := if 0 < grossLoss then grossProfit / grossLoss else 0
    { bets := bets
      totalBets := totalBets
      wins := wins
      losses := losses
      winRate := round2 winRate
      totalProfit := round2 totalProfit
      totalStaked := round2 totalStaked
      roi := round2 roi
      maxDrawdown := round2 (maxDrawdownWalk bets startingBankroll)
      sharpe := round2R sharpe
      profitFactor := round2 profitFactor
      longestWinStreak := (calculateStreaks bets).1
      longestLossStreak := (calculateStreaks bets).2
      startingBankroll := startingBankroll
      endingBankroll := round2 endingBankroll
      avgBetSize := round2 avgBetSize
      dailyResults := calculateDailyResults bets startingBankroll }

/-- Accumulator record of `PerformanceAnalyzer.analyze_by_prop_type` (the
`defaultdict` value; `confidences` is the `avg_confidence` list). -/
structure PropStats where
  appearances : ℕ
  wins : ℕ
  losses : ℕ
  totalProfit : ℚ
  confidences : List ℚ
  deriving DecidableEq

/-- The zero accumulator the `defaultdict` starts each prop type from. -/
def propZero : PropStats := ⟨0, 0, 0, 0, []⟩

/-- One `for prop_type in bet.prop_types` iteration of
`analyze_by_prop_type`: bump that prop type's counters. -/
def bumpProp (bet : Bet) (m : String → PropStats) (propType : String) :
    String → PropStats :=
  fun c =>
    if c = propType then
      ⟨(m c).appearances + 1,
       (m c).wins + (if bet.outcome = some true then 1 else 0),
       (m c).losses + (if bet.outcome = some false then 1 else 0),
       (m c).totalProfit + bet.actualPnl,
       (m c).confidences ++
         ((bet.props.filter (fun p => p.propType = propType)).map Pred.confidence)⟩
    else m c

/-- The tally phase of `PerformanceAnalyzer.analyze_by_prop_type`, the
`defaultdict` modelled as a total map with the zero default.  (The second
phase only derives win-rate ratios from these counters.) -/
def analyzeByPropType (bets : List Bet) : String → PropStats :=
  bets.foldl (fun m bet => bet.propTypes.foldl (bumpProp bet) m)
    (fun _ => propZero)

/-- Accumulator record of `analyze_by_confidence_level`. -/
structure BandStats where
  bets : ℕ
  wins : ℕ
  losses : ℕ
  totalStaked : ℚ
  totalProfit : ℚ
  deriving DecidableEq

/-- The default confidence buckets `[(60,70),(70,80),(80,90),(90,100)]`. -/
def defaultBuckets : List (ℚ × ℚ) := [(60, 70), (70, 80), (80, 90), (90, 100)]

/-- The `for low, high in buckets ... break` search: the first bucket with
`low <= conf < high`, if any. -/
def bucketFor (buckets : List (ℚ × ℚ)) (conf : ℚ) : Option (ℚ × ℚ) :=
  buckets.find? (fun b => decide (b.1 ≤ conf) && decide (conf < b.2))

/-- The counter bumps of one wager in `analyze_by_confidence_level`. -/
def bumpBand (bet : Bet) (s : BandStats) : BandStats :=
  ⟨s.bets + 1,
   s.wins + (if bet.outcome = some true then 1 else 0),
   s.losses + (if bet.outcome = some false then 1 else 0),
   s.totalStaked + bet.stake,
   s.totalProfit + bet.actualPnl⟩

/-- One wager of the `analyze_by_confidence_level` loop: bump the first
matching bucket's counters, or nothing on no match. -/
def bandStep (buckets : List (ℚ × ℚ)) (m : (ℚ × ℚ) → BandStats)
    (bet : Bet) : (ℚ × ℚ) → BandStats :=
  match bucketFor buckets bet.confidenceAvg with
  | none => m
  | some bk => fun b => if b = bk then bumpBand bet (m b) else m b

/-- The tally phase of `PerformanceAnalyzer.analyze_by_confidence_level`,
keyed by the bucket pair (the source's `"low-high%"` string key is in
bijection with it for any fixed bucket list). -/
def analyzeByConfidence (buckets : List (ℚ × ℚ)) (bets : List Bet) :
    (ℚ × ℚ) → BandStats :=
  bets.foldl (bandStep buckets) (fun _ => ⟨0, 0, 0, 0, 0⟩)

/-! Concrete fixtures used by witnesses and counterexamples. -/

/-- A prediction: player 1, game 1, points, projected 20, confidence 90,
EV 10, NBA, date 1. -/
def t1 : Pred := ⟨1, 1, "points", 20, 90, 10, "NBA", 1⟩

/-- A second points prediction on the same date (player 2, projected 10,
confidence 80, EV 5). -/
def t2 : Pred := ⟨2, 1, "points", 10, 80, 5, "NBA", 1⟩

/-- A prediction on a later date (player 3, game 2, assists, date 2). -/
def t3 : Pred := ⟨3, 2, "assists", 7, 70, 3, "NBA", 2⟩

/-- Outcomes:  player 1 scored 25 ≥ 20, player 2 grabbed 15 ≥ 10. -/
def outcomesA : Outcomes := fun k =>
  if k = (1, 1, "points") then some 25
  else if k = (2, 1, "points") then some 15
  else none

/-- The all-miss outcome lookup. -/
def noOutcomes : Outcomes := fun _ => none

/-- A resolved losing wager: stake 10, pnl −10. -/
def cLoss : Bet := ⟨1, 1, [], 10, 1, 70, 0, "NBA", [], 10, some false, -10⟩

/-- A resolved winning wager: stake 10, multiplier 3, pnl +20. -/
def cWin : Bet := ⟨1, 1, [], 10, 3, 70, 0, "NBA", [], 30, some true, 20⟩

/-- A resolved wager whose `confidence_avg` (50) is below every default
confidence bucket. -/
def cMid : Bet := ⟨1, 1, [], 10, 3, 50, 0, "NBA", [], 30, some false, -10⟩

end Backtest

/-! ## Theorems -/

namespace Backtest

theorem headI_mem {α : Type} [Inhabited α] {l : List α} (h : l ≠ []) :
    l.headI ∈ l := by
  cases l with
  | nil => exact absurd rfl h
  | cons a l => exact List.mem_cons_self a l

theorem propHit_iff (outcomes : Outcomes) (p : Pred) :
    propHit outcomes p = true ↔
      ∃ v, outcomes (p.playerId, p.gameId, p.propType) = some v ∧
        p.projectedValue ≤ v := by
  cases h : outcomes (p.playerId, p.gameId, p.propType) with
  | none => simp [propHit, h]
  | some v => simp [propHit, h, not_lt]

theorem createLoop_forall (P : Bet → Prop) (bank base : ℚ) (strat : String)
    (size : ℕ) (hP : ∀ ep stake, P (mkBet ep size stake)) :
    ∀ (fuel : ℕ) (ps : List Pred) (b : Bet),
      b ∈ createLoop bank base strat size fuel ps → P b := by
  intro fuel
  induction fuel with
  | zero => intro ps b hb; simp [createLoop] at hb
  | succ n ih =>
    intro ps b hb
    simp only [createLoop] at hb
    split at hb
    · split at hb
      · simp at hb
      · rcases List.mem_cons.1 hb with h | h
        · exact h ▸ hP _ _
        · exact ih _ b h
    · simp at hb

theorem foldl_mem_or {α : Type} (P : Bet → Prop)
    (step : List Bet × ℚ → α → List Bet × ℚ)
    (hstep : ∀ acc x b, b ∈ (step acc x).1 → b ∈ acc.1 ∨ P b) :
    ∀ (l : List α) (acc : List Bet × ℚ) (b : Bet),
      b ∈ (l.foldl step acc).1 → b ∈ acc.1 ∨ P b := by
  intro l
  induction l with
  | nil => intro acc b hb; exact Or.inl hb
  | cons x xs ih =>
    intro acc b hb
    rcases ih (step acc x) b hb with h | h
    · exact hstep acc x b h
    · exact Or.inr h

theorem generateBets_forall (P : Bet → Prop)
    (preds : List Pred) (sizes : List ℕ) (start base : ℚ) (strat : String)
    (hP : ∀ ep size stake, P (mkBet ep size stake)) :
    ∀ b ∈ generateBets preds sizes start base strat, P b := by
  intro b hb
  simp only [generateBets, generateState] at hb
  refine (foldl_mem_or P _ ?_ (groupByDate preds) ([], start) b hb).resolve_left
    (by simp)
  intro acc g b' hb'
  refine foldl_mem_or P _ ?_ sizes acc b' hb'
  intro acc2 s b'' hb''
  simp only [generateStep] at hb''
  rcases List.mem_append.1 hb'' with h | h
  · exact Or.inl h
  · exact Or.inr (createLoop_forall P acc2.2 base strat s
      (fun ep st => hP ep s st) _ _ b'' h)

/-- Claim C1: the Evaluator resolves every generated wager, as a win exactly
when every constituent prop has a matching outcome whose value is ≥ the
projected value; a win sets `actual_pnl` to `stake*(payout_multiplier-1)`,
a loss to `-stake`. -/
theorem claim1_evaluator_resolution (preds : List Pred) (sizes : List ℕ)
    (start base : ℚ) (strat : String) (outcomes : Outcomes) (b : Bet)
    (hb : b ∈ evaluateBets outcomes (generateBets preds sizes start base strat)) :
    (b.outcome = some true ∨ b.outcome = some false) ∧
    (b.outcome = some true ↔
      ∀ p ∈ b.props, ∃ v, outcomes (p.playerId, p.gameId, p.propType) = some v ∧
        p.projectedValue ≤ v) ∧
    (b.outcome = some true → b.actualPnl = b.stake * (b.payoutMultiplier - 1)) ∧
    (b.outcome = some false → b.actualPnl = -b.stake) := by
  rcases List.mem_map.1 hb with ⟨a, ha, rfl⟩
  have hpp : a.potentialPayout = a.stake * a.payoutMultiplier :=
    generateBets_forall (fun b => b.potentialPayout = b.stake * b.payoutMultiplier)
      preds sizes start base strat (fun ep size stake => rfl) a ha
  by_cases hall : a.props.all (propHit outcomes) = true
  · have hwin : ∀ p ∈ a.props,
        ∃ v, outcomes (p.playerId, p.gameId, p.propType) = some v ∧
          p.projectedValue ≤ v := by
      intro p hp
      exact (propHit_iff outcomes p).1 (List.all_eq_true.1 hall p hp)
    have e1 : evaluateBet outcomes a =
        { a with outcome := some true,
                 actualPnl := a.potentialPayout - a.stake } := by
      simp [evaluateBet, hall]
    rw [e1]
    refine ⟨Or.inl rfl, by simpa using hwin, ?_, ?_⟩
    · intro _
      show a.potentialPayout - a.stake = a.stake * (a.payoutMultiplier - 1)
      rw [hpp]; ring
    · intro hcon; simp at hcon
  · have hmiss : ¬ ∀ p ∈ a.props,
        ∃ v, outcomes (p.playerId, p.gameId, p.propType) = some v ∧
          p.projectedValue ≤ v := by
      intro hcon
      exact hall (List.all_eq_true.2 fun p hp =>
        (propHit_iff outcomes p).2 (hcon p hp))
    have e2 : evaluateBet outcomes a =
        { a with outcome := some false, actualPnl := -a.stake } := by
      simp [evaluateBet, hall]
    rw [e2]
    refine ⟨Or.inr rfl, by simpa using hmiss, ?_, fun _ => rfl⟩
    intro hcon; simp at hcon

/-- Witness for C1 at a concrete one-prop wager whose outcome is present
and above the projection. -/
theorem claim1_witness :
    (evaluateBets outcomesA (generateBets [t1] [1] 100 10 "flat")).headI.outcome
        = some true ∨
      (evaluateBets outcomesA (generateBets [t1] [1] 100 10 "flat")).headI.outcome
        = some false :=
  (claim1_evaluator_resolution [t1] [1] 100 10 "flat" outcomesA _
    (by norm_num [generateBets, generateState, groupByDate, createEntries,
      createLoop, calculateStake, mkBet, sortPredsDesc, evaluateBets,
      evaluateBet, propHit, outcomesA, t1, npMean, generateStep,
      List.mergeSort, List.dedup])).1

/-- Claim C8: the kelly policy bets nothing unless average confidence > 50
and average EV > 0, and otherwise stakes
`bankroll * (avg EV / 100) * fraction`, where the fraction is the base
parameter itself if ≤ 1 and the base parameter / 100 if > 1. -/
theorem claim8_kelly_stake (bank base : ℚ) (props : List Pred)
    (hne : props ≠ []) :
    (¬ (50 < npMean (props.map Pred.confidence) ∧
          0 < npMean (props.map Pred.expectedValue)) →
        calculateStake bank base "kelly" props = 0) ∧
    (50 < npMean (props.map Pred.confidence) →
      0 < npMean (props.map Pred.expectedValue) →
        calculateStake bank base "kelly" props =
          bank * (npMean (props.map Pred.expectedValue) / 100) *
            (if base ≤ 1 then base else base / 100)) := by
  constructor
  · intro h
    simp only [calculateStake]
    rw [if_neg (by decide), if_neg (by decide), if_pos trivial, if_neg h]
  · intro h1 h2
    simp only [calculateStake]
    rw [if_neg (by decide), if_neg (by decide), if_pos trivial, if_pos ⟨h1, h2⟩]

/-- Witness for C8: a one-prop group with confidence 60 and EV 10 at
bankroll 100 and kelly fraction 0.5 stakes 100 × 0.10 × 0.5 = 5. -/
theorem claim8_witness : calculateStake 100 (1/2) "kelly" [t1] = 5 := by
  have h := (claim8_kelly_stake 100 (1/2) [t1] (by simp)).2
    (by norm_num [npMean, t1]) (by norm_num [npMean, t1])
  rw [h]
  norm_num [npMean, t1]

@[simp] theorem round2_zero : round2 0 = 0 := by norm_num [round2]

@[simp] theorem round2R_zero : round2R 0 = 0 := by norm_num [round2R]

/-- `round2` is the identity on exact multiples of 1/100. -/
theorem round2_int_div (n : ℤ) : round2 ((n : ℚ) / 100) = (n : ℚ) / 100 := by
  have hy : ((n : ℚ) / 100) * 100 = (n : ℚ) := by
    rw [div_mul_cancel₀]
    norm_num
  simp only [round2, hy, Int.floor_intCast]
  norm_num

/-- Claim C4 as stated is false: `ending_bankroll` and `total_profit` are
rounded to two decimals while `starting_bankroll` is not, so with starting
bankroll 100.003 and one losing 10-stake wager the `ending_bankroll` field
is 90 while `starting_bankroll + total_profit` is 90.003. -/
theorem claim4_counterexample :
    (calculatePerformance [cLoss] (100.003 : ℚ)).endingBankroll ≠
      (calculatePerformance [cLoss] (100.003 : ℚ)).startingBankroll +
        (calculatePerformance [cLoss] (100.003 : ℚ)).totalProfit := by
  norm_num [calculatePerformance, cLoss, round2]

/-- Claim C4 amended: `ending_bankroll` is the rounded value of
`starting_bankroll` plus the exact total P&L, and `total_profit` the rounded
exact total P&L; the claimed identity
`ending_bankroll = starting_bankroll + total_profit` holds exactly whenever
the starting bankroll and the exact total P&L are integer multiples of 1/100
(and always for the empty result). -/
theorem claim4_amended (bets : List Bet) (start : ℚ) :
    ((calculatePerformance bets start).endingBankroll =
      if bets = [] then start
      else round2 (start + (bets.map Bet.actualPnl).sum)) ∧
    ((calculatePerformance bets start).totalProfit =
      if bets = [] then 0 else round2 ((bets.map Bet.actualPnl).sum)) ∧
    (∀ m n : ℤ, start = (m : ℚ) / 100 →
      (bets.map Bet.actualPnl).sum = (n : ℚ) / 100 →
      (calculatePerformance bets start).endingBankroll =
        (calculatePerformance bets start).startingBankroll +
          (calculatePerformance bets start).totalProfit) := by
  by_cases hb : bets = []
  · subst hb
    refine ⟨by simp [calculatePerformance, emptyResult],
      by simp [calculatePerformance, emptyResult], ?_⟩
    intro m n hm hn
    simp [calculatePerformance, emptyResult]
  · have he : (calculatePerformance bets start).endingBankroll =
        round2 (start + (bets.map Bet.actualPnl).sum) := by
      simp [calculatePerformance, hb]
    have hp : (calculatePerformance bets start).totalProfit =
        round2 ((bets.map Bet.actualPnl).sum) := by
      simp [calculatePerformance, hb]
    have hs : (calculatePerformance bets start).startingBankroll = start := by
      simp [calculatePerformance, hb]
    refine ⟨by rw [he, if_neg hb], by rw [hp, if_neg hb], ?_⟩
    intro m n hm hn
    have hsum : start + (bets.map Bet.actualPnl).sum = ((m + n : ℤ) : ℚ) / 100 := by
      rw [hm, hn]
      push_cast
      ring
    rw [he, hp, hs, hsum, hn, hm, round2_int_div, round2_int_div]
    push_cast
    ring

/-- Witness for C4 amended, at a cent-aligned starting bankroll of 100 and a
single losing wager of stake 10. -/
theorem claim4_witness :
    (calculatePerformance [cLoss] (100 : ℚ)).endingBankroll =
      (calculatePerformance [cLoss] (100 : ℚ)).startingBankroll +
        (calculatePerformance [cLoss] (100 : ℚ)).totalProfit :=
  (claim4_amended [cLoss] 100).2.2 10000 (-1000) (by norm_num)
    (by norm_num [cLoss])

theorem drawdown_fold_nonneg (start : ℚ) :
    ∀ (bets : List Bet) (s : ℚ × ℚ × ℚ), 0 ≤ s.2.2 →
      0 ≤ (bets.foldl (drawdownStep start) s).2.2 := by
  intro bets
  induction bets with
  | nil => intro s hs; exact hs
  | cons b bs ih =>
    intro s hs
    exact ih _ (le_trans hs (le_max_left _ _))

theorem drawdown_fold_flat (start : ℚ) :
    ∀ (bets : List Bet) (cum : ℚ), (∀ b ∈ bets, 0 ≤ b.actualPnl) →
      0 < start + cum →
      (bets.foldl (drawdownStep start) (cum, start + cum, 0)).2.2 = 0 := by
  intro bets
  induction bets with
  | nil => intro cum _ _; rfl
  | cons b bs ih =>
    intro cum hnn hpos
    have hb : 0 ≤ b.actualPnl := hnn b (List.mem_cons_self b bs)
    have hstep : drawdownStep start (cum, start + cum, 0) b =
        (cum + b.actualPnl, start + (cum + b.actualPnl), 0) := by
      simp only [drawdownStep]
      have hpeak : (if start + cum < start + (cum + b.actualPnl)
          then start + (cum + b.actualPnl) else start + cum) =
          start + (cum + b.actualPnl) := by
        split
        · rfl
        · linarith
      rw [hpeak]
      have : 0 < start + (cum + b.actualPnl) := by linarith
      rw [if_pos this]
      norm_num
    have : (b :: bs).foldl (drawdownStep start) (cum, start + cum, 0) =
        bs.foldl (drawdownStep start)
          (cum + b.actualPnl, start + (cum + b.actualPnl), 0) := by
      rw [List.foldl_cons, hstep]
    rw [this]
    exact ih (cum + b.actualPnl) (fun x hx => hnn x (List.mem_cons_of_mem b hx))
      (by linarith)

theorem equityCurve_chain_nonneg :
    ∀ (bets : List Bet) (c : ℚ),
      List.Chain' (· ≤ ·) (equityCurve c bets) →
      ∀ b ∈ bets, 0 ≤ b.actualPnl := by
  intro bets
  induction bets with
  | nil => intro c _ b hb; simp at hb
  | cons b bs ih =>
    intro c hch x hx
    have hhead : c ≤ c + b.actualPnl ∧
        List.Chain' (· ≤ ·) (equityCurve (c + b.actualPnl) bs) := by
      cases bs with
      | nil =>
        have h2 := hch
        simp only [equityCurve, List.chain'_cons, List.chain'_singleton,
          and_true] at h2
        refine ⟨h2, ?_⟩
        simp only [equityCurve, List.chain'_singleton]
      | cons b2 bs2 =>
        simp only [equityCurve, List.chain'_cons] at hch
        exact ⟨hch.1, hch.2⟩
    rcases List.mem_cons.1 hx with rfl | hx2
    · linarith [hhead.1]
    · exact ih (c + b.actualPnl) hhead.2 x hx2

/-- Claim C6: the max-drawdown walk (running cumulative P&L, running peak,
per-step drawdown `(peak − current)/peak·100`) is always ≥ 0, and is 0
whenever the equity curve is monotonically non-decreasing. -/
theorem claim6_drawdown (bets : List Bet) (start : ℚ) (h : 0 < start) :
    0 ≤ maxDrawdownWalk bets start ∧
    (List.Chain' (· ≤ ·) (equityCurve start bets) →
      maxDrawdownWalk bets start = 0) := by
  constructor
  · exact drawdown_fold_nonneg start bets (0, start, 0) le_rfl
  · intro hch
    have h0 : (0 : ℚ) < start + 0 := by linarith
    have := drawdown_fold_flat start bets 0
      (equityCurve_chain_nonneg bets start hch) h0
    simpa [maxDrawdownWalk] using this

/-- Witness for C6 at a single winning wager (equity 100 → 120): the walk's
drawdown is 0 and in particular nonnegative. -/
theorem claim6_witness :
    0 ≤ maxDrawdownWalk [cWin] 100 ∧ maxDrawdownWalk [cWin] 100 = 0 :=
  ⟨(claim6_drawdown [cWin] 100 (by norm_num)).1,
   (claim6_drawdown [cWin] 100 (by norm_num)).2
     (by norm_num [equityCurve, cWin])⟩

/-- Claim C7: every degenerate input is guarded: no wagers gives the empty
result with `ending_bankroll = starting_bankroll`, zero total staked gives
`roi = 0`, fewer than two wagers or zero variance of the excess returns give
`sharpe_ratio = 0`, and zero gross losses give `profit_factor = 0`. -/
theorem claim7_degenerate (bets : List Bet) (start : ℚ) :
    (calculatePerformance [] start = emptyResult start) ∧
    ((emptyResult start).endingBankroll = start) ∧
    ((bets.map Bet.stake).sum = 0 → (calculatePerformance bets start).roi = 0) ∧
    (bets.length < 2 → (calculatePerformance bets start).sharpe = 0) ∧
    (varianceQ (excessReturns (betReturns bets)) = 0 →
      (calculatePerformance bets start).sharpe = 0) ∧
    (((bets.filter (fun b => b.actualPnl < 0)).map Bet.actualPnl).sum = 0 →
      (calculatePerformance bets start).profitFactor = 0) := by
  refine ⟨by simp [calculatePerformance], rfl, ?_, ?_, ?_, ?_⟩
  · intro hst
    by_cases hb : bets = []
    · simp [hb, calculatePerformance, emptyResult]
    · simp [calculatePerformance, hb, hst]
  · intro hlen
    by_cases hb : bets = []
    · simp [hb, calculatePerformance, emptyResult]
    · have : ¬ 1 < bets.length := by omega
      simp [calculatePerformance, hb, this]
  · intro hvar
    by_cases hb : bets = []
    · simp [hb, calculatePerformance, emptyResult]
    · have hsh : calculateSharpe (betReturns bets) = 0 := by
        by_cases hlen : (betReturns bets).length < 2
        · simp [calculateSharpe, hlen]
        · simp [calculateSharpe, hlen, hvar]
      by_cases h1 : 1 < bets.length
      · simp [calculatePerformance, hb, h1, hsh]
      · simp [calculatePerformance, hb, h1]
  · intro hgl
    by_cases hb : bets = []
    · simp [hb, calculatePerformance, emptyResult]
    · simp [calculatePerformance, hb, hgl]

theorem foldl_state_preserve {α : Type} (f : List Bet × ℚ → ℚ)
    (step : List Bet × ℚ → α → List Bet × ℚ)
    (hstep : ∀ acc x, f (step acc x) = f acc) :
    ∀ (l : List α) (acc : List Bet × ℚ), f (l.foldl step acc) = f acc := by
  intro l
  induction l with
  | nil => intro acc; rfl
  | cons x xs ih => intro acc; rw [List.foldl_cons, ih, hstep]

theorem generateState_snd_flat (preds : List Pred) (sizes : List ℕ)
    (start base : ℚ) :
    (generateState preds sizes start base "flat").2 = start := by
  have inner : ∀ (g : ℕ × List Pred) (acc : List Bet × ℚ),
      (sizes.foldl (fun acc2 s => generateStep base "flat" acc2 g.2 s) acc).2
        = acc.2 := by
    intro g acc
    exact foldl_state_preserve (fun st => st.2) _
      (fun acc2 s => by simp [generateStep]) sizes acc
  exact foldl_state_preserve (fun st => st.2) _
    (fun acc g => inner g acc) (groupByDate preds) ([], start)

theorem generateState_snd_nonflat (preds : List Pred) (sizes : List ℕ)
    (start base : ℚ) (strat : String) (h : strat ≠ "flat") :
    (generateState preds sizes start base strat).2 =
      start -
        (((generateState preds sizes start base strat).1).map Bet.stake).sum := by
  have hstep : ∀ (g : ℕ × List Pred) (acc : List Bet × ℚ) (s : ℕ),
      (generateStep base strat acc g.2 s).2 +
        (((generateStep base strat acc g.2 s).1).map Bet.stake).sum =
      acc.2 + ((acc.1).map Bet.stake).sum := by
    intro g acc s
    simp only [generateStep, if_neg h, List.map_append, List.sum_append]
    ring
  have inner : ∀ (g : ℕ × List Pred) (acc : List Bet × ℚ),
      (fun st : List Bet × ℚ => st.2 + ((st.1).map Bet.stake).sum)
          (sizes.foldl (fun acc2 s => generateStep base strat acc2 g.2 s) acc)
        = acc.2 + ((acc.1).map Bet.stake).sum := by
    intro g acc
    exact foldl_state_preserve (fun st => st.2 + ((st.1).map Bet.stake).sum) _
      (fun acc2 s => hstep g acc2 s) sizes acc
  have main := foldl_state_preserve
    (fun st => st.2 + ((st.1).map Bet.stake).sum) _
    (fun acc g => inner g acc) (groupByDate preds) ([], start)
  simp only [generateState] at main ⊢
  simp only [List.map_nil, List.sum_nil, add_zero] at main
  linarith [main]

theorem createLoop_stake_shape (bank base : ℚ) (strat : String) (size : ℕ) :
    ∀ (fuel : ℕ) (ps : List Pred) (b : Bet),
      b ∈ createLoop bank base strat size fuel ps →
      ∃ ep, b.stake = calculateStake bank base strat ep := by
  intro fuel
  induction fuel with
  | zero => intro ps b hb; simp [createLoop] at hb
  | succ n ih =>
    intro ps b hb
    simp only [createLoop] at hb
    split at hb
    · split at hb
      · simp at hb
      · rcases List.mem_cons.1 hb with h | h
        · exact ⟨ps.take size, by rw [h]; rfl⟩
        · exact ih _ b h
    · simp at hb

/-- Claim C2 as stated is false: within one (date, entry_size) run the
stake of every entry is computed against the same bankroll.  Under the
percentage policy (50% of bankroll 100) the run yields stakes [50, 50],
while the claim requires the second stake to be computed against the
already-reduced bankroll 50, which would give 25. -/
theorem claim2_counterexample :
    ((generateBets [t1, t2] [1] 100 50 "percentage").map Bet.stake
        = [50, 50]) ∧
    calculateStake (100 - 50) 50 "percentage" [t2] = 25 ∧
    (50 : ℚ) ≠ 25 := by
  refine ⟨?_, by norm_num [calculateStake] <;> simp, by norm_num⟩
  norm_num [generateBets, generateState, groupByDate, generateStep,
    createEntries, createLoop, calculateStake, mkBet, sortPredsDesc,
    predKeyGe, npMean, t1, t2, List.mergeSort, List.dedup] <;> simp

/-- Claim C2 amended: the tracked bankroll is decremented per
(date, entry_size) group, not per entry: under a non-flat policy the final
tracked bankroll is the starting bankroll minus the total of all generated
stakes, while all entries of a single group are staked against that group's
starting bankroll (under percentage, every stake of one run equals
bankroll × base/100); under the flat policy the tracked bankroll is never
decremented. -/
theorem claim2_amended (preds : List Pred) (sizes : List ℕ)
    (start base : ℚ) (strat : String) :
    (strat = "flat" →
      (generateState preds sizes start base strat).2 = start) ∧
    (strat ≠ "flat" →
      (generateState preds sizes start base strat).2 =
        start -
          (((generateState preds sizes start base strat).1).map Bet.stake).sum) ∧
    (∀ (ps : List Pred) (s : ℕ) (bank : ℚ) (b : Bet),
      b ∈ createEntries ps s bank base "percentage" →
      b.stake = bank * (base / 100)) := by
  refine ⟨?_, generateState_snd_nonflat preds sizes start base strat, ?_⟩
  · intro h
    subst h
    exact generateState_snd_flat preds sizes start base
  · intro ps s bank b hb
    rcases createLoop_stake_shape bank base "percentage" s _ _ b hb with ⟨ep, hep⟩
    rw [hep]
    simp only [calculateStake]
    rw [if_neg (show ¬ ("percentage" : String) = "flat" by simp), if_pos trivial]

theorem bumpProp_fold (bet : Bet) (c : String) :
    ∀ (l : List String) (m : String → PropStats),
      (((l.foldl (bumpProp bet) m) c).appearances
          = (m c).appearances + l.count c) ∧
      (((l.foldl (bumpProp bet) m) c).wins
          = (m c).wins + (if bet.outcome = some true then l.count c else 0)) := by
  intro l
  induction l with
  | nil => intro m; simp
  | cons x xs ih =>
    intro m
    rw [List.foldl_cons]
    rcases ih (bumpProp bet m x) with ⟨iha, ihw⟩
    by_cases hcx : c = x
    · subst hcx
      have hm : ((bumpProp bet m c) c).appearances = (m c).appearances + 1 ∧
          ((bumpProp bet m c) c).wins =
            (m c).wins + (if bet.outcome = some true then 1 else 0) := by
        simp [bumpProp]
      rw [List.count_cons_self]
      constructor
      · rw [iha, hm.1]; ring
      · rw [ihw, hm.2]
        by_cases hw : bet.outcome = some true <;> simp [hw] <;> ring
    · have hm : (bumpProp bet m x) c = m c := by
        simp [bumpProp, hcx]
      have hcnt : (x :: xs).count c = xs.count c := by
        have hxc : ¬ x = c := fun h => hcx h.symm
        rw [List.count_cons]
        simp [hxc]
      rw [hcnt]
      exact ⟨by rw [iha, hm], by rw [ihw, hm]⟩

theorem analyzeByPropType_fold (c : String) :
    ∀ (bets : List Bet) (m : String → PropStats),
      (((bets.foldl (fun m bet => bet.propTypes.foldl (bumpProp bet) m) m) c).appearances
          = (m c).appearances + (bets.map (fun b => b.propTypes.count c)).sum) ∧
      (((bets.foldl (fun m bet => bet.propTypes.foldl (bumpProp bet) m) m) c).wins
          = (m c).wins +
            (bets.map (fun b =>
              if b.outcome = some true then b.propTypes.count c else 0)).sum) := by
  intro bets
  induction bets with
  | nil => intro m; simp
  | cons b bs ih =>
    intro m
    rw [List.foldl_cons]
    rcases ih (b.propTypes.foldl (bumpProp b) m) with ⟨iha, ihw⟩
    rcases bumpProp_fold b c b.propTypes m with ⟨ha, hw⟩
    constructor
    · rw [iha, ha, List.map_cons, List.sum_cons]; ring
    · rw [ihw, hw, List.map_cons, List.sum_cons]; ring

/-- Claim C3 as stated is false on wagers with a repeated prop category: a
single generated, winning 2-prop wager whose two props are both `"points"`
increments the `"points"` win counter by 2, not at most 1. -/
theorem claim3_counterexample :
    ((evaluateBets outcomesA (generateBets [t1, t2] [2] 100 10 "flat")).length
        = 1) ∧
    ((analyzeByPropType
        (evaluateBets outcomesA (generateBets [t1, t2] [2] 100 10 "flat"))
        "points").wins = 2) := by
  constructor <;>
    norm_num [generateBets, generateState, groupByDate, generateStep,
      createEntries, createLoop, calculateStake, mkBet, sortPredsDesc,
      predKeyGe, npMean, t1, t2, List.mergeSort, List.dedup, evaluateBets,
      evaluateBet, propHit, outcomesA, analyzeByPropType, bumpProp, propZero]

/-- Claim C3 amended: in `analyze_by_prop_type` a wager increments a
category's counters once per occurrence of that category among its props
(`count` of the category in its prop-type list); in particular a winning
wager whose categories are pairwise distinct — e.g. a 3-prop wager spanning
{A, B, C} — increments each of its categories' win counters by exactly 1. -/
theorem claim3_amended (bets : List Bet) (c : String) :
    ((analyzeByPropType bets c).appearances
        = (bets.map (fun b => b.propTypes.count c)).sum) ∧
    ((analyzeByPropType bets c).wins
        = (bets.map (fun b =>
            if b.outcome = some true then b.propTypes.count c else 0)).sum) ∧
    (∀ b : Bet, b.outcome = some true → b.propTypes.count c = 1 →
      (analyzeByPropType [b] c).wins = 1) := by
  refine ⟨?_, ?_, ?_⟩
  · have := (analyzeByPropType_fold c bets (fun _ => propZero)).1
    simpa [analyzeByPropType, propZero] using this
  · have := (analyzeByPropType_fold c bets (fun _ => propZero)).2
    simpa [analyzeByPropType, propZero] using this
  · intro b hw hcnt
    have := (analyzeByPropType_fold c [b] (fun _ => propZero)).2
    simp only [analyzeByPropType]
    rw [this]
    simp [propZero, hw, hcnt]

theorem analyzeByConfidence_fold (buckets : List (ℚ × ℚ)) (bk : ℚ × ℚ) :
    ∀ (bets : List Bet) (m : (ℚ × ℚ) → BandStats),
      ((bets.foldl (bandStep buckets) m) bk).bets =
        (m bk).bets +
          (bets.filter
            (fun b => bucketFor buckets b.confidenceAvg = some bk)).length := by
  intro bets
  induction bets with
  | nil => intro m; simp
  | cons bet rest ih =>
    intro m
    rw [List.foldl_cons, List.filter_cons]
    cases h : bucketFor buckets bet.confidenceAvg with
    | none =>
      have hstep : bandStep buckets m bet = m := by
        simp [bandStep, h]
      rw [hstep, ih]
      simp
    | some bk2 =>
      have hstep : bandStep buckets m bet =
          fun b => if b = bk2 then bumpBand bet (m b) else m b := by
        simp [bandStep, h]
      rw [hstep, ih]
      by_cases hbk : bk = bk2
      · subst hbk
        simp [bumpBand]
        ring
      · have hbk2 : ¬ (bk2 = bk) := fun hc => hbk hc.symm
        simp [hbk, hbk2]

/-- Claim C9 as stated is false: a resolved wager whose `confidence_avg` is
50 matches no default bucket, so it is counted in no band at all (not in
exactly one). -/
theorem claim9_counterexample :
    bucketFor defaultBuckets (50 : ℚ) = none ∧
    (analyzeByConfidence defaultBuckets [cMid] (60, 70)).bets = 0 ∧
    (analyzeByConfidence defaultBuckets [cMid] (70, 80)).bets = 0 ∧
    (analyzeByConfidence defaultBuckets [cMid] (80, 90)).bets = 0 ∧
    (analyzeByConfidence defaultBuckets [cMid] (90, 100)).bets = 0 := by
  refine ⟨?_, ?_, ?_, ?_, ?_⟩ <;>
    norm_num [bucketFor, defaultBuckets, List.find?, analyzeByConfidence,
      bandStep, cMid]

/-- Claim C9 amended: every wager is counted in at most one band — the
first bucket `(low, high)` with `low ≤ confidence_avg < high` — and a
default band's wager count is exactly the number of wagers whose
`confidence_avg` selects it; a wager matches some default band exactly when
`60 ≤ confidence_avg < 100`, so wagers outside `[60, 100)` are counted in no
band. -/
theorem claim9_amended (buckets : List (ℚ × ℚ)) (bets : List Bet)
    (bk : ℚ × ℚ) :
    ((analyzeByConfidence buckets bets bk).bets =
      (bets.filter
        (fun b => bucketFor buckets b.confidenceAvg = some bk)).length) ∧
    (∀ conf : ℚ,
      (bucketFor defaultBuckets conf).isSome ↔ (60 ≤ conf ∧ conf < 100)) := by
  constructor
  · have := analyzeByConfidence_fold buckets bk bets (fun _ => ⟨0, 0, 0, 0, 0⟩)
    simpa [analyzeByConfidence] using this
  · intro conf
    rw [bucketFor, List.find?_isSome]
    constructor
    · rintro ⟨b, hb, hpb⟩
      simp only [defaultBuckets, List.mem_cons, List.not_mem_nil,
        or_false] at hb
      simp only [Bool.and_eq_true, decide_eq_true_eq] at hpb
      rcases hb with rfl | rfl | rfl | rfl <;> norm_num at hpb <;>
        exact ⟨by linarith [hpb.1], by linarith [hpb.2]⟩
    · rintro ⟨h60, h100⟩
      by_cases a1 : conf < 70
      · exact ⟨(60, 70), by simp [defaultBuckets],
          by simp only [Bool.and_eq_true, decide_eq_true_eq]; exact ⟨h60, a1⟩⟩
      · by_cases a2 : conf < 80
        · exact ⟨(70, 80), by simp [defaultBuckets],
            by simp only [Bool.and_eq_true, decide_eq_true_eq]
               exact ⟨le_of_not_lt a1, a2⟩⟩
        · by_cases a3 : conf < 90
          · exact ⟨(80, 90), by simp [defaultBuckets],
              by simp only [Bool.and_eq_true, decide_eq_true_eq]
                 exact ⟨le_of_not_lt a2, a3⟩⟩
          · exact ⟨(90, 100), by simp [defaultBuckets],
              by simp only [Bool.and_eq_true, decide_eq_true_eq]
                 exact ⟨le_of_not_lt a3, h100⟩⟩

theorem calculateStake_unknown (bank base : ℚ) (strat : String)
    (props : List Pred) (h1 : strat ≠ "flat") (h2 : strat ≠ "percentage")
    (h3 : strat ≠ "kelly") : calculateStake bank base strat props = base := by
  simp [calculateStake, h1, h2, h3]

theorem createLoop_stake_base_eq (base : ℚ) (sz : ℕ) (b1 b2 : ℚ)
    (s1 s2 : String)
    (hs1 : ∀ ep, calculateStake b1 base s1 ep = base)
    (hs2 : ∀ ep, calculateStake b2 base s2 ep = base)
    (hb1 : base ≤ b1) (hb2 : base ≤ b2) :
    ∀ (fuel : ℕ) (ps : List Pred),
      createLoop b1 base s1 sz fuel ps = createLoop b2 base s2 sz fuel ps := by
  intro fuel
  induction fuel with
  | zero => intro ps; rfl
  | succ n ih =>
    intro ps
    simp only [createLoop, hs1, hs2]
    by_cases hlen : sz ≤ ps.length
    · rw [if_pos hlen, if_pos hlen]
      by_cases hb0 : base ≤ 0
      · rw [if_pos (Or.inl hb0), if_pos (Or.inl hb0)]
      · have c1 : ¬ (base ≤ 0 ∨ b1 < base) := not_or.2 ⟨hb0, not_lt.2 hb1⟩
        have c2 : ¬ (base ≤ 0 ∨ b2 < base) := not_or.2 ⟨hb0, not_lt.2 hb2⟩
        rw [if_neg c1, if_neg c2, ih]
    · rw [if_neg hlen, if_neg hlen]

theorem createLoop_dead (base b : ℚ) (s : String) (sz : ℕ)
    (hs : ∀ ep, calculateStake b base s ep = base)
    (hdead : base ≤ 0 ∨ b < base) :
    ∀ (fuel : ℕ) (ps : List Pred), createLoop b base s sz fuel ps = [] := by
  intro fuel ps
  cases fuel with
  | zero => rfl
  | succ n =>
    simp only [createLoop, hs]
    by_cases hlen : sz ≤ ps.length
    · rw [if_pos hlen, if_pos hdead]
    · rw [if_neg hlen]

theorem createEntries_stake_base (dps : List Pred) (sz : ℕ)
    (bank base : ℚ) (s : String)
    (hs : ∀ ep, calculateStake bank base s ep = base) :
    ∀ b ∈ createEntries dps sz bank base s, b.stake = base := by
  intro b hb
  rcases createLoop_stake_shape bank base s sz _ _ b hb with ⟨ep, hep⟩
  rw [hep, hs]

theorem generateStep_dead (base : ℚ) (s : String) (acc : List Bet × ℚ)
    (dps : List Pred) (sz : ℕ)
    (hs : ∀ bank ep, calculateStake bank base s ep = base)
    (hdead : base ≤ 0 ∨ acc.2 < base) :
    generateStep base s acc dps sz = acc := by
  have he : createEntries dps sz acc.2 base s = [] :=
    createLoop_dead base acc.2 s sz (hs acc.2) hdead _ _
  simp [generateStep, he]

theorem pairsFold_dead (base : ℚ) (s : String)
    (hs : ∀ bank ep, calculateStake bank base s ep = base) :
    ∀ (pairs : List (List Pred × ℕ)) (L : List Bet) (bU : ℚ),
      (base ≤ 0 ∨ bU < base) →
      pairs.foldl (fun acc p => generateStep base s acc p.1 p.2) (L, bU)
        = (L, bU) := by
  intro pairs
  induction pairs with
  | nil => intro L bU _; rfl
  | cons p rest ih =>
    intro L bU hdead
    simp only [List.foldl_cons]
    rw [generateStep_dead base s (L, bU) p.1 p.2 hs hdead]
    exact ih L bU hdead

theorem pairsFold_fst_append (base : ℚ) (s : String) :
    ∀ (pairs : List (List Pred × ℕ)) (acc : List Bet × ℚ),
      ∃ t, (pairs.foldl (fun acc p => generateStep base s acc p.1 p.2) acc).1
        = acc.1 ++ t := by
  intro pairs
  induction pairs with
  | nil => intro acc; exact ⟨[], by simp⟩
  | cons p rest ih =>
    intro acc
    simp only [List.foldl_cons]
    rcases ih (generateStep base s acc p.1 p.2) with ⟨t, ht⟩
    refine ⟨createEntries p.1 p.2 acc.2 base s ++ t, ?_⟩
    rw [ht]
    simp [generateStep, List.append_assoc]

theorem pairsFold_flat_extends (base start : ℚ) (strat : String)
    (hne : strat ≠ "flat")
    (hsU : ∀ bank ep, calculateStake bank base strat ep = base)
    (hsF : ∀ bank ep, calculateStake bank base "flat" ep = base) :
    ∀ (pairs : List (List Pred × ℕ)) (L : List Bet) (bU : ℚ), bU ≤ start →
      ∃ t,
        (pairs.foldl (fun acc p => generateStep base "flat" acc p.1 p.2)
            (L, start)).1
          = (pairs.foldl (fun acc p => generateStep base strat acc p.1 p.2)
              (L, bU)).1 ++ t := by
  intro pairs
  induction pairs with
  | nil => intro L bU _; exact ⟨[], by simp⟩
  | cons p rest ih =>
    intro L bU hb
    by_cases hlive : 0 < base ∧ base ≤ bU
    · have hEq : createEntries p.1 p.2 bU base strat =
          createEntries p.1 p.2 start base "flat" := by
        unfold createEntries
        exact createLoop_stake_base_eq base p.2 bU start strat "flat"
          (hsU bU) (hsF start) hlive.2 (le_trans hlive.2 hb) _ _
      have hstepU : generateStep base strat (L, bU) p.1 p.2
          = (L ++ createEntries p.1 p.2 start base "flat",
             bU - ((createEntries p.1 p.2 start base "flat").map Bet.stake).sum) := by
        simp [generateStep, hne, hEq]
      have hstepF : generateStep base "flat" (L, start) p.1 p.2
          = (L ++ createEntries p.1 p.2 start base "flat", start) := by
        simp [generateStep]
      have hsum : 0 ≤ ((createEntries p.1 p.2 start base "flat").map Bet.stake).sum := by
        apply List.sum_nonneg
        intro x hx
        rcases List.mem_map.1 hx with ⟨b, hbmem, rfl⟩
        rw [createEntries_stake_base _ _ _ _ _ (hsF start) b hbmem]
        exact le_of_lt hlive.1
      simp only [List.foldl_cons]
      rw [hstepU, hstepF]
      exact ih (L ++ createEntries p.1 p.2 start base "flat")
        (bU - ((createEntries p.1 p.2 start base "flat").map Bet.stake).sum)
        (by linarith)
    · have hdead : base ≤ 0 ∨ bU < base := by
        rcases le_or_lt base 0 with h | h
        · exact Or.inl h
        · right
          by_contra hcon
          push_neg at hcon
          exact hlive ⟨h, hcon⟩
      simp only [List.foldl_cons]
      rw [generateStep_dead base strat (L, bU) p.1 p.2 hsU hdead,
        pairsFold_dead base strat hsU rest L bU hdead]
      have hstepF : generateStep base "flat" (L, start) p.1 p.2
          = (L ++ createEntries p.1 p.2 start base "flat", start) := by
        simp [generateStep]
      rw [hstepF]
      rcases pairsFold_fst_append base "flat" rest
        (L ++ createEntries p.1 p.2 start base "flat", start) with ⟨t2, ht2⟩
      exact ⟨createEntries p.1 p.2 start base "flat" ++ t2,
        by rw [ht2, List.append_assoc]⟩

theorem generateState_eq_pairsFold (preds : List Pred) (sizes : List ℕ)
    (start base : ℚ) (strat : String) :
    generateState preds sizes start base strat =
      ((groupByDate preds).flatMap (fun g => sizes.map (fun s => (g.2, s)))).foldl
        (fun acc p => generateStep base strat acc p.1 p.2) ([], start) := by
  suffices h : ∀ (groups : List (ℕ × List Pred)) (acc : List Bet × ℚ),
      groups.foldl
          (fun acc g =>
            sizes.foldl (fun acc2 s => generateStep base strat acc2 g.2 s) acc)
          acc
        = (groups.flatMap (fun g => sizes.map (fun s => (g.2, s)))).foldl
            (fun acc p => generateStep base strat acc p.1 p.2) acc by
    exact h (groupByDate preds) ([], start)
  intro groups
  induction groups with
  | nil => intro acc; rfl
  | cons g rest ih =>
    intro acc
    rw [List.foldl_cons, List.flatMap_cons, List.foldl_append, List.foldl_map]
    exact ih _

/-- Claim C5 as stated is false: an unrecognized bankroll policy computes
flat stakes but still decrements the tracked bankroll, so generation can
stop early.  With two one-prop dates, bankroll 10 and stake 10, policy
`"foo"` produces one wager while `flat` produces two. -/
theorem claim5_counterexample :
    (generateBets [t1, t3] [1] 10 10 "foo").length = 1 ∧
    (generateBets [t1, t3] [1] 10 10 "flat").length = 2 ∧
    generateBets [t1, t3] [1] 10 10 "foo" ≠
      generateBets [t1, t3] [1] 10 10 "flat" := by
  have e1 : (generateBets [t1, t3] [1] 10 10 "foo").length = 1 := by
    norm_num [generateBets, generateState, groupByDate, generateStep,
      createEntries, createLoop, calculateStake, mkBet, sortPredsDesc,
      predKeyGe, npMean, ENTRY_PAYOUTS, t1, t3, List.mergeSort,
      List.dedup] <;> simp <;> norm_num
  have e2 : (generateBets [t1, t3] [1] 10 10 "flat").length = 2 := by
    norm_num [generateBets, generateState, groupByDate, generateStep,
      createEntries, createLoop, calculateStake, mkBet, sortPredsDesc,
      predKeyGe, npMean, ENTRY_PAYOUTS, t1, t3, List.mergeSort,
      List.dedup] <;> simp <;> norm_num
  refine ⟨e1, e2, ?_⟩
  intro heq
  rw [heq, e2] at e1
  exact absurd e1 (by norm_num)

/-- Claim C5 amended: for an unrecognized bankroll policy the stake
computation falls back to flat (every stake equals the base stake
parameter), but—unlike flat—the tracked bankroll is still decremented, so
the generated wager sequence is an initial segment of the flat sequence
(and can be a proper one, as the counterexample run shows). -/
theorem claim5_amended (preds : List Pred) (sizes : List ℕ)
    (start base : ℚ) (strat : String) (h1 : strat ≠ "flat")
    (h2 : strat ≠ "percentage") (h3 : strat ≠ "kelly") :
    (∀ (bank : ℚ) (props : List Pred),
      calculateStake bank base strat props
        = calculateStake bank base "flat" props) ∧
    (∃ t, generateBets preds sizes start base "flat"
        = generateBets preds sizes start base strat ++ t) := by
  have hsU : ∀ (bank : ℚ) (ep : List Pred),
      calculateStake bank base strat ep = base :=
    fun bank ep => calculateStake_unknown bank base strat ep h1 h2 h3
  have hsF : ∀ (bank : ℚ) (ep : List Pred),
      calculateStake bank base "flat" ep = base := by
    intro bank ep
    simp [calculateStake]
  constructor
  · intro bank props
    rw [hsU bank props, hsF bank props]
  · rw [generateBets, generateBets, generateState_eq_pairsFold,
      generateState_eq_pairsFold]
    exact pairsFold_flat_extends base start strat h1 hsU hsF _ [] start le_rfl

/-- Witness for C5 amended at the policy name `"foo"`: its stake equals the
flat stake on a concrete bankroll and prop group. -/
theorem claim5_witness :
    calculateStake 7 10 "foo" [t1] = calculateStake 7 10 "flat" [t1] :=
  (claim5_amended [t1, t3] [1] 10 10 "foo" (by simp) (by simp) (by simp)).1
    7 [t1]

theorem evaluateBet_date (outcomes : Outcomes) (b : Bet) :
    (evaluateBet outcomes b).date = b.date := by
  unfold evaluateBet
  split <;> rfl

theorem groupByDate_member_dates (preds : List Pred) :
    ∀ g ∈ groupByDate preds, ∀ p ∈ g.2, p.gameDate = g.1 := by
  intro g hg p hp
  rcases List.mem_map.1 hg with ⟨d, _, rfl⟩
  simpa using List.of_mem_filter hp

theorem groupByDate_keys_pairwise (preds : List Pred) :
    List.Pairwise (· < ·) ((groupByDate preds).map Prod.fst) := by
  have hmap : (groupByDate preds).map Prod.fst =
      ((preds.map Pred.gameDate).dedup).mergeSort (fun a b => decide (a ≤ b)) := by
    simp only [groupByDate, List.map_map]
    have hid : (Prod.fst ∘ fun d =>
        (d, preds.filter (fun p => p.gameDate = d))) = id := rfl
    rw [hid, List.map_id]
  rw [hmap]
  have hsorted : List.Sorted (· ≤ ·)
      (((preds.map Pred.gameDate).dedup).mergeSort (fun a b => decide (a ≤ b))) :=
    List.sorted_mergeSort' _
  have hnodup : (((preds.map Pred.gameDate).dedup).mergeSort
      (fun a b => decide (a ≤ b))).Nodup :=
    ((List.mergeSort_perm _ _).nodup_iff).2 (List.nodup_dedup _)
  exact hsorted.lt_of_le hnodup

theorem createLoop_mem_shape (bank base : ℚ) (strat : String) (sz : ℕ) :
    ∀ (fuel : ℕ) (ps : List Pred) (b : Bet),
      b ∈ createLoop bank base strat sz fuel ps →
      ∃ ep st, b = mkBet ep sz st ∧ ep.length = sz ∧ ep ⊆ ps := by
  intro fuel
  induction fuel with
  | zero => intro ps b hb; simp [createLoop] at hb
  | succ n ih =>
    intro ps b hb
    simp only [createLoop] at hb
    split at hb
    case isTrue hlen =>
      split at hb
      · simp at hb
      · rcases List.mem_cons.1 hb with h | h
        · exact ⟨ps.take sz, _, h,
            by rw [List.length_take]; exact min_eq_left hlen,
            List.take_subset _ _⟩
        · rcases ih _ b h with ⟨ep, st, he, hlen2, hsub⟩
          exact ⟨ep, st, he, hlen2,
            fun x hx => List.drop_subset _ _ (hsub hx)⟩
    case isFalse _ => simp at hb

theorem createEntries_date (dps : List Pred) (sz : ℕ) (bank base : ℚ)
    (strat : String) (d : ℕ) (hd : ∀ p ∈ dps, p.gameDate = d) (hsz : 0 < sz) :
    ∀ b ∈ createEntries dps sz bank base strat, b.date = d := by
  intro b hb
  simp only [createEntries] at hb
  rcases createLoop_mem_shape bank base strat sz _ _ b hb with
    ⟨ep, st, rfl, hlen, hsub⟩
  have hne : ep ≠ [] := by
    intro h
    rw [h, List.length_nil] at hlen
    omega
  have hmem : ep.headI ∈ dps := by
    have h2 : ep.headI ∈ sortPredsDesc dps := hsub (headI_mem hne)
    exact (List.Perm.mem_iff (List.mergeSort_perm dps predKeyGe)).1 h2
  exact hd ep.headI hmem

theorem innerFold_dates (base : ℚ) (strat : String) (dps : List Pred) (d : ℕ)
    (hd : ∀ p ∈ dps, p.gameDate = d) :
    ∀ (szs : List ℕ), (∀ s ∈ szs, 0 < s) → ∀ (acc : List Bet × ℚ),
      ∃ t, (szs.foldl (fun acc2 s => generateStep base strat acc2 dps s) acc).1
          = acc.1 ++ t ∧ ∀ b ∈ t, b.date = d := by
  intro szs
  induction szs with
  | nil => intro _ acc; exact ⟨[], by simp, by simp⟩
  | cons s rest ih =>
    intro hsz acc
    simp only [List.foldl_cons]
    rcases ih (fun x hx => hsz x (List.mem_cons_of_mem s hx))
      (generateStep base strat acc dps s) with ⟨t, ht, hdt⟩
    refine ⟨createEntries dps s acc.2 base strat ++ t, ?_, ?_⟩
    · rw [ht]
      simp [generateStep, List.append_assoc]
    · intro b hb
      rcases List.mem_append.1 hb with h | h
      · exact createEntries_date dps s acc.2 base strat d hd
          (hsz s (List.mem_cons_self s rest)) b h
      · exact hdt b h

theorem outerFold_pairwise (base : ℚ) (strat : String) (sizes : List ℕ)
    (hsz : ∀ s ∈ sizes, 0 < s) :
    ∀ (groups : List (ℕ × List Pred)) (acc : List Bet × ℚ),
      (∀ g ∈ groups, ∀ p ∈ g.2, p.gameDate = g.1) →
      List.Pairwise (· < ·) (groups.map Prod.fst) →
      List.Pairwise (fun a b : Bet => a.date ≤ b.date) acc.1 →
      (∀ b ∈ acc.1, ∀ g ∈ groups, b.date ≤ g.1) →
      List.Pairwise (fun a b : Bet => a.date ≤ b.date)
        (groups.foldl
          (fun acc g =>
            sizes.foldl (fun acc2 s => generateStep base strat acc2 g.2 s) acc)
          acc).1 := by
  intro groups
  induction groups with
  | nil => intro acc _ _ hp _; exact hp
  | cons g rest ih =>
    intro acc hgrp hkeys hacc hbound
    simp only [List.foldl_cons]
    rcases innerFold_dates base strat g.2 g.1
      (hgrp g (List.mem_cons_self g rest)) sizes hsz acc with ⟨t, ht, hdt⟩
    rw [List.map_cons] at hkeys
    have hhead : ∀ g' ∈ rest, g.1 < g'.1 := by
      intro g' hg'
      exact (List.pairwise_cons.1 hkeys).1 g'.1
        (List.mem_map_of_mem Prod.fst hg')
    apply ih
    · intro g' hg'
      exact hgrp g' (List.mem_cons_of_mem g hg')
    · exact (List.pairwise_cons.1 hkeys).2
    · rw [ht]
      refine (List.pairwise_append).2 ⟨hacc, ?_, ?_⟩
      · exact List.pairwise_of_forall_mem_list
          (fun a ha b hb => by rw [hdt a ha, hdt b hb])
      · intro x hx y hy
        rw [hdt y hy]
        exact hbound x hx g (List.mem_cons_self g rest)
    · intro b hb g' hg'
      rw [ht] at hb
      rcases List.mem_append.1 hb with h | h
      · exact hbound b h g' (List.mem_cons_of_mem g hg')
      · rw [hdt b h]
        exact le_of_lt (hhead g' hg')

theorem generateBets_dates_pairwise (preds : List Pred) (sizes : List ℕ)
    (start base : ℚ) (strat : String) (hsz : ∀ s ∈ sizes, 0 < s) :
    List.Pairwise (fun a b : Bet => a.date ≤ b.date)
      (generateBets preds sizes start base strat) := by
  unfold generateBets generateState
  apply outerFold_pairwise base strat sizes hsz (groupByDate preds) ([], start)
  · exact groupByDate_member_dates preds
  · exact groupByDate_keys_pairwise preds
  · simp
  · simp

theorem evaluateBets_dates_pairwise (preds : List Pred) (sizes : List ℕ)
    (start base : ℚ) (strat : String) (outcomes : Outcomes)
    (hsz : ∀ s ∈ sizes, 0 < s) :
    List.Pairwise (fun a b : Bet => a.date ≤ b.date)
      (evaluateBets outcomes (generateBets preds sizes start base strat)) := by
  unfold evaluateBets
  rw [List.pairwise_map]
  exact (generateBets_dates_pairwise preds sizes start base strat hsz).imp
    (fun h => by rw [evaluateBet_date, evaluateBet_date]; exact h)

theorem filter_le_append_single {l : List Bet} {b : Bet} {d : ℕ}
    (h : d < b.date) :
    (l ++ [b]).filter (fun x => x.date ≤ d) =
      l.filter (fun x => x.date ≤ d) := by
  rw [List.filter_append]
  simp [Nat.not_le.2 h]

theorem filter_le_all {l : List Bet} {d : ℕ} (h : ∀ x ∈ l, x.date ≤ d) :
    l.filter (fun x => x.date ≤ d) = l :=
  List.filter_eq_self.2 (fun x hx => by simpa using h x hx)

theorem daily_fold_spec (s0 : ℚ) :
    ∀ (rest processed : List Bet) (st : List Daily × ℚ),
      st.2 = ((processed.map Bet.actualPnl).sum) →
      List.Pairwise (· < ·) (st.1.map Daily.date) →
      (∀ e ∈ st.1,
        e.cumulativePnl =
          round2 (((processed.filter (fun b => b.date ≤ e.date)).map
            Bet.actualPnl).sum) ∧
        e.bankroll =
          round2 (s0 + ((processed.filter (fun b => b.date ≤ e.date)).map
            Bet.actualPnl).sum)) →
      (∀ e ∈ st.1, ∃ b ∈ processed, b.date = e.date) →
      (∀ b ∈ processed, ∃ e ∈ st.1, e.date = b.date) →
      List.Pairwise (fun a b : Bet => a.date ≤ b.date) (processed ++ rest) →
      ((rest.foldl (dailyStep s0) st).2 =
          (((processed ++ rest).map Bet.actualPnl).sum) ∧
        List.Pairwise (· < ·) ((rest.foldl (dailyStep s0) st).1.map Daily.date) ∧
        (∀ e ∈ (rest.foldl (dailyStep s0) st).1,
          e.cumulativePnl =
            round2 ((((processed ++ rest).filter
              (fun b => b.date ≤ e.date)).map Bet.actualPnl).sum) ∧
          e.bankroll =
            round2 (s0 + (((processed ++ rest).filter
              (fun b => b.date ≤ e.date)).map Bet.actualPnl).sum)) ∧
        (∀ e ∈ (rest.foldl (dailyStep s0) st).1,
          ∃ b ∈ processed ++ rest, b.date = e.date) ∧
        (∀ b ∈ processed ++ rest,
          ∃ e ∈ (rest.foldl (dailyStep s0) st).1, e.date = b.date)) := by
  intro rest
  induction rest with
  | nil =>
    intro processed st h2 hpw heq hc1 hc2 _
    simpa using ⟨h2, hpw, heq, hc1, hc2⟩
  | cons b rest' ih =>
    intro processed st h2 hpw heq hc1 hc2 hble
    have hble1 : ∀ p ∈ processed, p.date ≤ b.date := by
      intro p hp
      exact (List.pairwise_append.1 hble).2.2 p hp b
        (List.mem_cons_self b rest')
    have hlt : ∀ e ∈ st.1, e.date ≠ b.date → e.date < b.date := by
      intro e he hne
      rcases hc1 e he with ⟨b', hb', hbd⟩
      exact lt_of_le_of_ne (hbd ▸ hble1 b' hb') hne
    -- the per-entry update function of this step
    have hassoc : processed ++ b :: rest' = (processed ++ [b]) ++ rest' := by
      simp
    rw [List.foldl_cons]
    rw [hassoc] at hble ⊢
    cases hany : st.1.any (fun e => e.date = b.date) with
    | true =>
      have hst1 : (dailyStep s0 st b).1 =
          st.1.map (fun e => if e.date = b.date then
            (⟨e.date, e.bets + 1,
              e.wins + (if b.outcome = some true then 1 else 0),
              e.losses + (if b.outcome = some false then 1 else 0),
              e.dailyPnl + b.actualPnl,
              round2 (st.2 + b.actualPnl),
              round2 (s0 + (st.2 + b.actualPnl))⟩ : Daily) else e) := by
        simp only [dailyStep, hany, if_true, updateDaily]
      have hst2 : (dailyStep s0 st b).2 = st.2 + b.actualPnl := rfl
      have hdates : (dailyStep s0 st b).1.map Daily.date = st.1.map Daily.date := by
        rw [hst1, List.map_map]
        apply List.map_congr_left
        intro e _
        by_cases he : e.date = b.date <;> simp [he]
      refine ih (processed ++ [b]) (dailyStep s0 st b) ?_ ?_ ?_ ?_ ?_ hble
      · rw [hst2, h2]
        simp
      · rw [hdates]
        exact hpw
      · intro e' he'
        rw [hst1] at he'
        rcases List.mem_map.1 he' with ⟨e, he, rfl⟩
        by_cases hd : e.date = b.date
        · simp only [hd, if_true]
          constructor
          · show round2 (st.2 + b.actualPnl) = _
            rw [h2]
            have hfil : (processed ++ [b]).filter
                (fun x => x.date ≤ b.date) = processed ++ [b] :=
              filter_le_all (by
                intro x hx
                rcases List.mem_append.1 hx with h | h
                · exact hble1 x h
                · rw [List.mem_singleton.1 h])
            simp [hfil]
          · show round2 (s0 + (st.2 + b.actualPnl)) = _
            rw [h2]
            have hfil : (processed ++ [b]).filter
                (fun x => x.date ≤ b.date) = processed ++ [b] :=
              filter_le_all (by
                intro x hx
                rcases List.mem_append.1 hx with h | h
                · exact hble1 x h
                · rw [List.mem_singleton.1 h])
            simp [hfil, add_assoc]
        · simp only [hd, if_false]
          have hfil := filter_le_append_single
            (l := processed) (b := b) (hlt e he hd)
          rw [hfil]
          exact heq e he
      · intro e' he'
        rw [hst1] at he'
        rcases List.mem_map.1 he' with ⟨e, he, rfl⟩
        rcases hc1 e he with ⟨b', hb', hbd⟩
        refine ⟨b', List.mem_append_left _ hb', ?_⟩
        by_cases hd : e.date = b.date
        · rw [if_pos hd]
          exact hbd
        · rw [if_neg hd]
          exact hbd
      · intro bb hbb
        rcases List.mem_append.1 hbb with h | h
        · rcases hc2 bb h with ⟨e, he, hed⟩
          refine ⟨(if e.date = b.date then
            (⟨e.date, e.bets + 1,
              e.wins + (if b.outcome = some true then 1 else 0),
              e.losses + (if b.outcome = some false then 1 else 0),
              e.dailyPnl + b.actualPnl,
              round2 (st.2 + b.actualPnl),
              round2 (s0 + (st.2 + b.actualPnl))⟩ : Daily) else e), ?_, ?_⟩
          · rw [hst1]
            exact List.mem_map_of_mem _ he
          · by_cases hd : e.date = b.date
            · rw [if_pos hd]
              exact hed
            · rw [if_neg hd]
              exact hed
        · rcases List.any_eq_true.1 hany with ⟨e0, he0, he0d⟩
          have he0d2 : e0.date = b.date := by simpa using he0d
          refine ⟨(⟨e0.date, e0.bets + 1,
              e0.wins + (if b.outcome = some true then 1 else 0),
              e0.losses + (if b.outcome = some false then 1 else 0),
              e0.dailyPnl + b.actualPnl,
              round2 (st.2 + b.actualPnl),
              round2 (s0 + (st.2 + b.actualPnl))⟩ : Daily), ?_, ?_⟩
          · rw [hst1]
            have := List.mem_map_of_mem
              (fun e => if e.date = b.date then
                (⟨e.date, e.bets + 1,
                  e.wins + (if b.outcome = some true then 1 else 0),
                  e.losses + (if b.outcome = some false then 1 else 0),
                  e.dailyPnl + b.actualPnl,
                  round2 (st.2 + b.actualPnl),
                  round2 (s0 + (st.2 + b.actualPnl))⟩ : Daily) else e) he0
            simpa [he0d2] using this
          · rw [List.mem_singleton.1 h, he0d2]
    | false =>
      have hnot : ∀ e ∈ st.1, ¬ e.date = b.date := by
        intro e he
        have := List.any_eq_false.1 hany e he
        simpa using this
      have hstep1 : (dailyStep s0 st b).1 =
          st.1 ++ [(⟨b.date, 1,
            (if b.outcome = some true then 1 else 0),
            (if b.outcome = some false then 1 else 0),
            b.actualPnl,
            round2 (st.2 + b.actualPnl),
            round2 (s0 + (st.2 + b.actualPnl))⟩ : Daily)] := by
        simp only [dailyStep, hany, Bool.false_eq_true, if_false, updateDaily]
        rw [List.map_append]
        congr 1
        · conv_rhs => rw [← List.map_id st.1]
          apply List.map_congr_left
          intro e he
          exact if_neg (hnot e he)
        · simp
      have hstep2 : (dailyStep s0 st b).2 = st.2 + b.actualPnl := rfl
      have hltall : ∀ e ∈ st.1, e.date < b.date :=
        fun e he => hlt e he (hnot e he)
      refine ih (processed ++ [b]) (dailyStep s0 st b) ?_ ?_ ?_ ?_ ?_ hble
      · rw [hstep2, h2]
        simp
      · rw [hstep1, List.map_append, List.pairwise_append]
        refine ⟨hpw, by simp, ?_⟩
        intro d1 hd1 d2 hd2
        rcases List.mem_map.1 hd1 with ⟨e, he, rfl⟩
        simp only [List.map_cons, List.map_nil, List.mem_singleton] at hd2
        rw [hd2]
        exact hltall e he
      · intro e' he'
        rw [hstep1] at he'
        rcases List.mem_append.1 he' with he | he
        · have hfil := filter_le_append_single
            (l := processed) (b := b) (hltall e' he)
          rw [hfil]
          exact heq e' he
        · rw [List.mem_singleton.1 he]
          constructor
          · show round2 (st.2 + b.actualPnl) = _
            rw [h2]
            have hfil : (processed ++ [b]).filter
                (fun x => x.date ≤ b.date) = processed ++ [b] :=
              filter_le_all (by
                intro x hx
                rcases List.mem_append.1 hx with h | h
                · exact hble1 x h
                · rw [List.mem_singleton.1 h])
            simp [hfil]
          · show round2 (s0 + (st.2 + b.actualPnl)) = _
            rw [h2]
            have hfil : (processed ++ [b]).filter
                (fun x => x.date ≤ b.date) = processed ++ [b] :=
              filter_le_all (by
                intro x hx
                rcases List.mem_append.1 hx with h | h
                · exact hble1 x h
                · rw [List.mem_singleton.1 h])
            simp [hfil, add_assoc]
      · intro e' he'
        rw [hstep1] at he'
        rcases List.mem_append.1 he' with he | he
        · rcases hc1 e' he with ⟨b', hb', hbd⟩
          exact ⟨b', List.mem_append_left _ hb', hbd⟩
        · rw [List.mem_singleton.1 he]
          exact ⟨b, List.mem_append_right _ (List.mem_singleton_self b), rfl⟩
      · intro bb hbb
        rcases List.mem_append.1 hbb with h | h
        · rcases hc2 bb h with ⟨e, he, hed⟩
          exact ⟨e, by rw [hstep1]; exact List.mem_append_left _ he, hed⟩
        · refine ⟨(⟨b.date, 1,
            (if b.outcome = some true then 1 else 0),
            (if b.outcome = some false then 1 else 0),
            b.actualPnl,
            round2 (st.2 + b.actualPnl),
            round2 (s0 + (st.2 + b.actualPnl))⟩ : Daily), ?_, ?_⟩
          · rw [hstep1]
            exact List.mem_append_right _ (List.mem_singleton_self _)
          · rw [List.mem_singleton.1 h]

/-- Claim C10 as stated is false: the equity-curve entries carry rounded
values.  A generated losing percentage wager of stake 10.003 yields a
`cumulative_pnl` entry of −10, not the exact total realized P&L −10.003. -/
theorem claim10_counterexample :
    ((calculateDailyResults
        (evaluateBets noOutcomes
          (generateBets [t1] [1] (100.03 : ℚ) 10 "percentage"))
        (100.03 : ℚ)).map Daily.cumulativePnl = [-10]) ∧
    (((evaluateBets noOutcomes
        (generateBets [t1] [1] (100.03 : ℚ) 10 "percentage")).map
      Bet.actualPnl).sum = -10.003) ∧
    ((-10 : ℚ) ≠ -10.003) := by
  have hgen : generateBets [t1] [1] (100.03 : ℚ) 10 "percentage"
      = [⟨1, 1, [t1], 10003/1000, 1, 90, 10, "NBA", ["points"], 10003/1000,
          none, 0⟩] := by
    norm_num [generateBets, generateState, groupByDate, generateStep,
      createEntries, createLoop, calculateStake, mkBet, sortPredsDesc,
      predKeyGe, npMean, ENTRY_PAYOUTS, t1, List.mergeSort,
      List.dedup] <;> simp <;> norm_num
  have hbets : evaluateBets noOutcomes
      (generateBets [t1] [1] (100.03 : ℚ) 10 "percentage")
      = [⟨1, 1, [t1], 10003/1000, 1, 90, 10, "NBA", ["points"], 10003/1000,
          some false, -(10003/1000)⟩] := by
    rw [evaluateBets, hgen]
    norm_num [evaluateBet, propHit, noOutcomes, t1]
  rw [hbets]
  refine ⟨?_, ?_, by norm_num⟩
  · norm_num [calculateDailyResults, dailyStep, updateDaily, round2, t1]
  · norm_num

/-- Claim C10 amended: for Generator-produced, evaluated wagers (positive
entry sizes), the daily equity-curve entries appear in strictly ascending
date order; each entry's `bankroll` is the rounded value of the starting
bankroll plus the cumulative P&L through the last wager of its date, its
`cumulative_pnl` the rounded cumulative P&L through that wager, and the
final entry's `cumulative_pnl` is the rounded total realized P&L. -/
theorem claim10_amended (preds : List Pred) (sizes : List ℕ)
    (start base s0 : ℚ) (strat : String) (outcomes : Outcomes)
    (hsz : ∀ s ∈ sizes, 0 < s) :
    List.Pairwise (· < ·)
      ((calculateDailyResults
          (evaluateBets outcomes (generateBets preds sizes start base strat))
          s0).map Daily.date) ∧
    (∀ e ∈ calculateDailyResults
        (evaluateBets outcomes (generateBets preds sizes start base strat)) s0,
      e.cumulativePnl =
        round2 ((((evaluateBets outcomes
            (generateBets preds sizes start base strat)).filter
          (fun b => b.date ≤ e.date)).map Bet.actualPnl).sum) ∧
      e.bankroll =
        round2 (s0 + (((evaluateBets outcomes
            (generateBets preds sizes start base strat)).filter
          (fun b => b.date ≤ e.date)).map Bet.actualPnl).sum)) ∧
    (∀ e, (calculateDailyResults
          (evaluateBets outcomes (generateBets preds sizes start base strat))
          s0).getLast? = some e →
      e.cumulativePnl =
        round2 (((evaluateBets outcomes
          (generateBets preds sizes start base strat)).map
            Bet.actualPnl).sum)) := by
  have hpw : List.Pairwise (fun a b : Bet => a.date ≤ b.date)
      (evaluateBets outcomes (generateBets preds sizes start base strat)) :=
    evaluateBets_dates_pairwise preds sizes start base strat outcomes hsz
  have hmain := daily_fold_spec s0
    (evaluateBets outcomes (generateBets preds sizes start base strat)) []
    ([], 0) (by simp) (by simp) (by simp) (by simp) (by simp)
    (by simpa using hpw)
  simp only [List.nil_append] at hmain
  rcases hmain with ⟨_, hdates, heqs, _, hcorr2⟩
  refine ⟨hdates, heqs, ?_⟩
  intro e hlast
  have hemem : e ∈ calculateDailyResults
      (evaluateBets outcomes (generateBets preds sizes start base strat)) s0 :=
    List.mem_of_mem_getLast? hlast
  have hmax : ∀ e' ∈ calculateDailyResults
      (evaluateBets outcomes (generateBets preds sizes start base strat)) s0,
      e'.date ≤ e.date := by
    intro e' he'
    have hsplit := List.dropLast_append_getLast? e hlast
    have hpairs : List.Pairwise (· < ·)
        ((calculateDailyResults
          (evaluateBets outcomes (generateBets preds sizes start base strat))
          s0).map Daily.date) := hdates
    rw [← hsplit, List.map_append, List.pairwise_append] at hpairs
    rw [← hsplit] at he'
    rcases List.mem_append.1 he' with h | h
    · exact le_of_lt (hpairs.2.2 e'.date (List.mem_map_of_mem Daily.date h)
        e.date (by simp))
    · rw [List.mem_singleton.1 h]
  have hall : ∀ b ∈ evaluateBets outcomes
      (generateBets preds sizes start base strat), b.date ≤ e.date := by
    intro b hb
    rcases hcorr2 b hb with ⟨e', he', hed⟩
    rw [← hed]
    exact hmax e' he'
  have := (heqs e hemem).1
  rw [filter_le_all hall] at this
  exact this

/-- Witness for C10 amended at a concrete one-wager run. -/
theorem claim10_witness :
    List.Pairwise (· < ·)
      ((calculateDailyResults
          (evaluateBets noOutcomes (generateBets [t1] [1] 100 10 "flat"))
          (100 : ℚ)).map Daily.date) :=
  (claim10_amended [t1] [1] 100 10 100 "flat" noOutcomes
    (by intro s hs; simp at hs; omega)).1

end Backtest
